import Mathlib

/-!
Verification of the Pico ADC web server (rp_adc_server.py, rp_esp32.py).

Shallow embedding conventions:
* Python unbounded integers are modelled as ℤ; list indices and lengths as ℕ.
* Python floats are modelled as exact rationals ℚ (the float literal 3.3 becomes
  33/10, nsamp/20.0 becomes (nsamp : ℚ)/20); the percent-format "%1.3f" is
  modelled as sign, decimal integer digits, a dot and three rounded decimals,
  with round-to-nearest on the exact rational value.
* Strings are modelled as Lean Strings; their char lists stand for the bytes of
  the (ASCII) texts the program builds.
* The pseudo-random generator random.randint(0, 100) is modelled as an oracle
  noise : ℕ → ℕ whose values the caller may constrain to be at most 100; the
  DMA-filled ADC sample buffer is modelled as an oracle raw : ℕ → ℕ giving the
  raw converter codes that the hardware deposits.
-/

/-- MIN_SAMPLES from rp_adc_server.py line 27. -/
def MIN_SAMPLES : ℤ := 10

/-- MAX_SAMPLES from rp_adc_server.py line 27. -/
def MAX_SAMPLES : ℤ := 1000

/-- MIN_RATE from rp_adc_server.py line 29. -/
def MIN_RATE : ℤ := 1000

/-- MAX_RATE from rp_adc_server.py line 29. -/
def MAX_RATE : ℤ := 500000

/-- ICON_ICO from rp_adc_server.py line 36. -/
def ICON_ICO : String := "favicon.ico"

/-- DATA_CSV from rp_adc_server.py line 34. -/
def DATA_CSV : String := "data.csv"

/-- CAPTURE_CSV from rp_adc_server.py line 35. -/
def CAPTURE_CSV : String := "capture.csv"

/-- The mutable parameters dict of rp_adc_server.py line 42:
parameters = \x7b"nsamples":ADC_SAMPLES, "xrate":ADC_RATE, "simulate":0\x7d.
All three values are Python ints. -/
structure Params where
  nsamples : ℤ
  xrate : ℤ
  simulate : ℤ
deriving DecidableEq, Repr

/-- Initial value of the parameters dict (ADC_SAMPLES = 20, ADC_RATE = 100000). -/
def parameters : Params := { nsamples := 20, xrate := 100000, simulate := 0 }

/-- Whitespace recognised by Python str.split() with no argument
(space, tab, newline, carriage return, vertical tab, form feed). -/
def isSpace (c : Char) : Bool :=
  c = ' ' || c = '\t' || c = '\n' || c = '\r' || c = '\x0b' || c = '\x0c'

/-- Value of an ASCII decimal digit character. -/
def digitVal (c : Char) : ℕ := c.toNat - 48

/-- Split a char list at every occurrence of the separator char, keeping empty
pieces, like Python str.split(sep): "a&&b".split gives three pieces and
"".split gives one empty piece. -/
def pySplitSep (sep : Char) : List Char → List (List Char)
  | [] => [[]]
  | c :: rest =>
    if c = sep then [] :: pySplitSep sep rest
    else
      let r := pySplitSep sep rest
      (c :: r.headD []) :: r.tail

/-- Split a char list at every whitespace char, keeping empty pieces;
filtering the empties afterwards yields Python str.split() behaviour. -/
def splitWs : List Char → List (List Char)
  | [] => [[]]
  | c :: rest =>
    if isSpace c then [] :: splitWs rest
    else
      let r := splitWs rest
      (c :: r.headD []) :: r.tail

/-- Python str.split() with no argument: split on whitespace runs, dropping
empty words. -/
def pySplit (s : String) : List String :=
  ((splitWs s.data).filter (fun w => !w.isEmpty)).map String.mk

/-- Python str.partition(sep) for a single separator char, reduced to the pair
(piece before the first separator, piece after it); when the separator does not
occur the second component is empty, as in Python where partition returns
(s, "", ""). -/
def partAfter (sep : Char) : List Char → List Char × List Char
  | [] => ([], [])
  | c :: rest =>
    if c = sep then ([], rest)
    else
      let r := partAfter sep rest
      (c :: r.1, r.2)

/-- Python str.replace("on", "1"): replace every non-overlapping occurrence of
the two chars o, n by the char 1, scanning left to right. -/
def replaceOn : List Char → List Char
  | [] => []
  | 'o' :: 'n' :: rest => '1' :: replaceOn rest
  | c :: rest => c :: replaceOn rest

/-- Digit-run parser used by the model of Python int(): consumes decimal digits
with single underscores allowed between digits, accumulating the value. -/
def goDigits (acc : ℕ) : List Char → Option ℕ
  | [] => some acc
  | c :: rest =>
    if c.isDigit then goDigits (acc * 10 + digitVal c) rest
    else if c = '_' then
      match rest with
      | [] => none
      | d :: rest2 =>
        if d.isDigit then goDigits (acc * 10 + digitVal d) rest2 else none
    else none

/-- Strip the whitespace Python int() ignores at both ends. -/
def pyStrip (cs : List Char) : List Char :=
  ((cs.dropWhile isSpace).reverse.dropWhile isSpace).reverse

/-- Model of Python int(str) on ASCII text: optional surrounding whitespace,
an optional sign, then a nonempty digit run (underscores allowed between
digits); anything else raises ValueError, modelled as none. -/
def pyIntChars (cs0 : List Char) : Option ℤ :=
  match pyStrip cs0 with
  | [] => none
  | c :: rest =>
    if c = '+' then
      match rest with
      | [] => none
      | d :: rest2 =>
        if d.isDigit then (goDigits (digitVal d) rest2).map Int.ofNat else none
    else if c = '-' then
      match rest with
      | [] => none
      | d :: rest2 =>
        if d.isDigit then (goDigits (digitVal d) rest2).map (fun n => -(n : ℤ)) else none
    else if c.isDigit then (goDigits (digitVal c) rest).map Int.ofNat
    else none

/-- Model of Python int(str) on a Lean String. -/
def pyInt (s : String) : Option ℤ := pyIntChars s.data

/-- Test whether the first list is a prefix of the second. -/
def leadsWith : List Char → List Char → Bool
  | [], _ => true
  | _ :: _, [] => false
  | p :: ps, c :: cs => p == c && leadsWith ps cs

/-- Scan for the first occurrence of the pattern and return the chars after it,
or none when the pattern does not occur. -/
def findAfter (pat : List Char) : List Char → Option (List Char)
  | [] => if pat.isEmpty then some [] else none
  | c :: rest =>
    if leadsWith pat (c :: rest) then some ((c :: rest).drop pat.length)
    else findAfter pat rest

/-- Python substring containment, the `in` operator on strings. -/
def containsSub (pat : List Char) : List Char → Bool
  | [] => pat.isEmpty
  | c :: rest => leadsWith pat (c :: rest) || containsSub pat rest

/-- Python `pat in s` at String level. -/
def strContains (pat s : String) : Bool := containsSub pat.data s.data

/-- Fuel-driven digit renderer: for fuel at least n it yields the
most-significant-first decimal digit chars of n, empty for zero. -/
def natDigsF : ℕ → ℕ → List Char
  | _, 0 => []
  | 0, _ + 1 => []
  | fuel + 1, n + 1 => natDigsF fuel ((n + 1) / 10) ++ [Nat.digitChar ((n + 1) % 10)]

/-- Most-significant-first decimal digit chars of a positive natural;
empty for zero. -/
def natDigsAux (n : ℕ) : List Char := natDigsF n n

/-- Decimal rendering of a natural number, as Python %u produces it. -/
def natStr (n : ℕ) : List Char :=
  if n = 0 then ['0'] else natDigsAux n

/-- Three-digit zero-padded decimal rendering, for the fractional part of
"%1.3f" (argument below 1000). -/
def pad3 (m : ℕ) : List Char :=
  [Nat.digitChar (m / 100), Nat.digitChar (m / 10 % 10), Nat.digitChar (m % 10)]

/-- Value of a most-significant-first decimal digit char list. -/
def parseNatChars (l : List Char) : ℕ :=
  l.foldl (fun a c => a * 10 + digitVal c) 0

/-- Model of the Python format "%1.3f" applied to an exact rational: the sign
of the value, the decimal digits of the integer part of the magnitude rounded
to three decimals, a dot, and exactly three fractional digits. -/
def fmt3Chars (q : ℚ) : List Char :=
  (if q < 0 then ['-'] else []) ++ natStr ((round (1000 * q)).natAbs / 1000) ++
    '.' :: pad3 ((round (1000 * q)).natAbs % 1000)

/-- String form of the "%1.3f" model. -/
def fmt3 (q : ℚ) : String := String.mk (fmt3Chars q)

/-- Join char-list lines with the two-char separator CR LF, like
"\r\n".join in Python. -/
def joinChars : List (List Char) → List Char
  | [] => []
  | [l] => l
  | l :: ls => l ++ '\r' :: '\n' :: joinChars ls

/-- Python "\r\n".join at String level. -/
def crlfJoin (ls : List String) : String :=
  String.mk (joinChars (ls.map String.data))

/-- Split a char list at every CR LF pair. -/
def splitChars : List Char → List (List Char)
  | [] => [[]]
  | [c] => [[c]]
  | c1 :: c2 :: rest =>
    if c1 = '\r' ∧ c2 = '\n' then [] :: splitChars rest
    else
      let r := splitChars (c2 :: rest)
      (c1 :: r.headD []) :: r.tail
termination_by l => l.length
decreasing_by
  all_goals simp
  omega

/-- Split a nonempty text into its CR-LF-separated lines; the empty text has
no lines. -/
def crlfSplit (s : String) : List String :=
  if s.data.isEmpty then [] else (splitChars s.data).map String.mk

/-- Rendering of a list of capture values into the CSV-like body, as in
rp_adc_server.py lines 116 and 128:
a CR-LF-joined list of "%1.3f"-formatted numbers. -/
def render (vals : List ℚ) : String := crlfJoin (vals.map fmt3)

/-- Update step of get_fname_params (rp_adc_server.py lines 62-69) for one
query pair: split the pair on every sign of equality, and when there are at
least two pieces and the first names a known parameter, try
int(p[1].replace("on", "1")); on success store the value, on failure keep
the previous value. -/
def applyParam (ps : Params) (pr : String) : Params :=
  match pySplitSep '=' pr.data with
  | k :: v :: _ =>
    let key := String.mk k
    if key = "nsamples" ∨ key = "xrate" ∨ key = "simulate" then
      match pyIntChars (replaceOn v) with
      | some n =>
        if key = "nsamples" then { ps with nsamples := n }
        else if key = "xrate" then { ps with xrate := n }
        else { ps with simulate := n }
      | none => ps
    else ps
  | _ => ps

/-- The value get_fname_params hands to the parameter update for one query
pair: the second piece of the split on every sign of equality, when it
exists. -/
def handedValue (pr : String) : Option String :=
  match pySplitSep '=' pr.data with
  | _ :: v :: _ => some (String.mk v)
  | _ => none

/-- get_fname_params from rp_adc_server.py lines 54-70: reset simulate to 0,
split the request line on whitespace; when it has a second token, partition it
at the first question mark into the filename and the query string, split the
query string on ampersands and apply every pair to the parameter dict;
return the filename (empty when the line has fewer than two tokens). -/
def get_fname_params (line : String) (params : Params) : String × Params :=
  let params0 := { params with simulate := 0 }
  match pySplit line with
  | _ :: target :: _ =>
    let pq := partAfter '?' target.data
    let query := (pySplitSep '&' pq.2).map String.mk
    (String.mk pq.1, query.foldl applyParam params0)
  | _ => ("", params0)

/-- The query pieces a request line is split into by get_fname_params. -/
def queryPieces (line : String) : List String :=
  match pySplit line with
  | _ :: target :: _ => (pySplitSep '&' (partAfter '?' target.data).2).map String.mk
  | _ => []

/-- Whether one query pair would successfully store a value for the given
parameter key: it splits into at least two pieces, the first piece is the key,
and int(piece.replace("on", "1")) succeeds on the second piece. -/
def validFor (key : String) (pr : String) : Bool :=
  match pySplitSep '=' pr.data with
  | k :: v :: _ => String.mk k == key && (pyIntChars (replaceOn v)).isSome
  | _ => false

/-- Python max(MIN_SAMPLES, min(MAX_SAMPLES, n)) from rp_adc_server.py
line 104. -/
def clampSamples (n : ℤ) : ℤ := max MIN_SAMPLES (min MAX_SAMPLES n)

/-- Python max(MIN_RATE, min(MAX_RATE, r)) from rp_adc_server.py line 105. -/
def clampRate (r : ℤ) : ℤ := max MIN_RATE (min MAX_RATE r)

/-- Observable outcome of adc_capture (rp_adc_server.py lines 102-116):
the clamped sample count (buffer length and DMA transfer count), the value
written to the ADC divider register, the voltage values, and the response
text. -/
structure CaptureOut where
  nsamp : ℕ
  divReg : ℤ
  vals : List ℚ
  text : String
deriving DecidableEq, Repr

/-- adc_capture from rp_adc_server.py lines 102-116: clamp the stored sample
count and rate, allocate a buffer of the clamped length that the DMA engine
fills with raw codes (modelled by the oracle raw), program the divider
register with (48000000 // rate - 1) << 8, and render each code as a voltage
val * 3.3 / 4096 formatted with "%1.3f", joined by CR LF. -/
def adc_capture (ps : Params) (raw : ℕ → ℕ) : CaptureOut :=
  let nsamp := (clampSamples ps.nsamples).toNat
  let rate := clampRate ps.xrate
  let vals := (List.range nsamp).map (fun i => (raw i : ℚ) * (33 / 10) / 4096)
  { nsamp := nsamp
    divReg := (48000000 / rate - 1) * 2 ^ 8
    vals := vals
    text := render vals }

/-- One pass of the loop body of adc_sim (rp_adc_server.py lines 124-125):
s += c / f; c -= s / f, on the state pair (s, c). -/
def simStep (f : ℚ) (sc : ℚ × ℚ) : ℚ × ℚ :=
  let s2 := sc.1 + sc.2 / f
  (s2, sc.2 - s2 / f)

/-- The oscillator state after n loop iterations, starting from
s = 1.0, c = 0.0 (rp_adc_server.py line 122). -/
def simState (f : ℚ) : ℕ → ℚ × ℚ
  | 0 => (1, 0)
  | n + 1 => simStep f (simState f n)

/-- The list built by the loop of adc_sim: starting from state sc and sample
index idx, produce cnt values; each iteration first advances the state, then
emits (s + 1) * (c + 1) + randint(0, 100) / 300.0 with the random draw
modelled by the noise oracle. -/
def simList (f : ℚ) (noise : ℕ → ℕ) (sc : ℚ × ℚ) (idx : ℕ) : ℕ → List ℚ
  | 0 => []
  | cnt + 1 =>
    let sc2 := simStep f sc
    ((sc2.1 + 1) * (sc2.2 + 1) + (noise idx : ℚ) / 300) :: simList f noise sc2 (idx + 1) cnt

/-- The values produced by adc_sim (rp_adc_server.py lines 119-128) for a
stored nsamples value: the loop runs range(0, nsamp) times (empty for
nsamp ≤ 0) with f = nsamp / 20.0. -/
def adc_sim_vals (nsamp : ℤ) (noise : ℕ → ℕ) : List ℚ :=
  simList ((nsamp : ℚ) / 20) noise (1, 0) 0 nsamp.toNat

/-- The text adc_sim returns: the values rendered with "%1.3f" and joined by
CR LF (rp_adc_server.py line 128). -/
def adc_sim_text (ps : Params) (noise : ℕ → ℕ) : String :=
  render (adc_sim_vals ps.nsamples noise)

/-- The capture branch of the main loop (rp_adc_server.py line 148): the body
is adc_sim() when the stored simulate value is truthy, else adc_capture(). -/
def captureBody (ps : Params) (noise raw : ℕ → ℕ) : String :=
  if ps.simulate ≠ 0 then adc_sim_text ps noise else (adc_capture ps raw).text

/-- HTTP_OK from rp_esp32.py line 42. -/
def HTTP_OK : String := "HTTP/1.1 200 OK\r\n"

/-- HEAD_END from rp_esp32.py line 51. -/
def HEAD_END : String := "\r\n"

/-- CONTENT_LEN % n from rp_esp32.py line 43: "Content-Length: %u\r\n" with
the length printed in decimal. -/
def contentLenHdr (n : ℕ) : String :=
  "Content-Length: " ++ String.mk (natStr n) ++ "\r\n"

/-- CONTENT_TYPE % t from rp_esp32.py line 44: "Content-type %s\r\n"
(the colon is missing in the source and is reproduced faithfully here). -/
def contentTypeHdr (t : String) : String := "Content-type " ++ t ++ "\r\n"

/-- NOT_FOUND from rp_esp32.py line 48, sent verbatim by put_http_404. -/
def NOT_FOUND : String :=
  "HTTP/1.1 404 Not found\r\nContent-Length: 14\r\n\r\nFile not found"

/-- ESP32.put_http_text from rp_esp32.py lines 166-171: the full byte stream
handed to the client for a text body, resp = HTTP_OK + CONTENT_LEN % len(text)
+ CONTENT_TYPE % "text/html" + HEAD_END + text. -/
def put_http_text (text : String) : String :=
  HTTP_OK ++ contentLenHdr text.length ++ contentTypeHdr "text/html" ++ HEAD_END ++ text

/-- The Content-Length value an HTTP-like response declares: the decimal run
right after the first occurrence of the header name. -/
def declaredCL (s : String) : Option ℕ :=
  (findAfter "Content-Length: ".data s.data).map
    (fun rest => parseNatChars (rest.takeWhile Char.isDigit))

/-- The body of an HTTP-like response: everything after the first blank line,
that is after the first CR LF CR LF. -/
def bodyOf (s : String) : Option String :=
  (findAfter ['\r', '\n', '\r', '\n'] s.data).map String.mk

/-- Decimal value rounded to three decimal places, the number a "%1.3f" line
denotes. -/
def round3 (q : ℚ) : ℚ := (round (1000 * q) : ℚ) / 1000

/-- Parser for an unsigned fixed-point decimal: a nonempty digit run,
optionally followed by a dot and a nonempty digit run. -/
def parseUnsigned (cs : List Char) : Option ℚ :=
  if (cs.takeWhile Char.isDigit).isEmpty then none
  else if (cs.dropWhile Char.isDigit).isEmpty then
    some (parseNatChars (cs.takeWhile Char.isDigit) : ℚ)
  else if (cs.dropWhile Char.isDigit).head? = some '.' ∧
      ¬((cs.dropWhile Char.isDigit).tail).isEmpty ∧
      ((cs.dropWhile Char.isDigit).tail).all Char.isDigit then
    some ((parseNatChars (cs.takeWhile Char.isDigit) : ℚ) +
      (parseNatChars ((cs.dropWhile Char.isDigit).tail) : ℚ) /
        10 ^ ((cs.dropWhile Char.isDigit).tail).length)
  else none

/-- Parser for one rendered line: optional leading minus sign, then an
unsigned fixed-point decimal. -/
def parseLine (s : String) : Option ℚ :=
  if s.data.head? = some '-' then (parseUnsigned s.data.tail).map (fun q => -q)
  else parseUnsigned s.data

/-- Re-parse a rendered body: split it into CR-LF lines and parse each line;
none when any line fails to parse. -/
def reparse (s : String) : Option (List ℚ) :=
  (crlfSplit s).mapM parseLine

/-- Matcher for the regular expression of digits, dot, three digits anchored
at both ends: a nonempty digit run, a dot, and exactly three digits. -/
def matchesNumChars (cs : List Char) : Bool :=
  !(cs.takeWhile Char.isDigit).isEmpty &&
    match cs.dropWhile Char.isDigit with
    | ['.', d1, d2, d3] => d1.isDigit && d2.isDigit && d3.isDigit
    | _ => false

/-- The same matcher with an optional leading minus sign. -/
def matchesSignedNumChars (cs : List Char) : Bool :=
  if cs.head? = some '-' then matchesNumChars cs.tail else matchesNumChars cs

/-- Matcher on a String line. -/
def matchesNumLine (s : String) : Bool := matchesNumChars s.data

/-- Signed matcher on a String line. -/
def matchesSignedNumLine (s : String) : Bool := matchesSignedNumChars s.data

/-- The runtime errors the dispatch loop of rp_adc_server.py can raise:
nameError for the undefined DATA_FNAME on line 145, typeError for the call
of ESP32.put_http_text with three arguments on line 149 while the method of
rp_esp32.py line 166 accepts only the text. -/
inductive PyError
  | nameError
  | typeError
deriving DecidableEq, Repr

/-- The response kinds the main loop can hand to the transport. -/
inductive Response
  | notFound
  | fileResp (fname : String)
  | textResp (body : String)
deriving DecidableEq, Repr

/-- The dispatch of the main loop of rp_adc_server.py lines 137-155 on one
request line: update the parameters, then route on substring containment.
The data.csv branch evaluates DIRECTORY + DATA_FNAME, but DATA_FNAME is not
a name of the rp_adc_server module (its constant is DATA_CSV), so the branch
raises NameError. The capture.csv branch computes the body and then calls
esp.put_http_text(vals, "text/csv", esp32.DISABLE_CACHE), a three-argument
call of the one-text-argument method of rp_esp32.py line 166, so it raises
TypeError before anything is sent. The remaining branches answer with the
404 text, the named file, or the index file. -/
def handle_request (line : String) (params : Params) (fileEx : String → Bool)
    (noise raw : ℕ → ℕ) : Params × Except PyError Response :=
  let fp := get_fname_params line params
  let fname := fp.1
  let ps := fp.2
  if strContains ICON_ICO fname then (ps, .ok .notFound)
  else if strContains DATA_CSV fname then (ps, .error .nameError)
  else if strContains CAPTURE_CSV fname then
    let _vals := captureBody ps noise raw
    (ps, .error .typeError)
  else if fileEx fname then (ps, .ok (.fileResp fname))
  else (ps, .ok (.fileResp "/rpscope.html"))

/-- The constant zero oracle, used to instantiate noise or raw codes at
concrete inputs. -/
def noiseZero : ℕ → ℕ := fun _ => 0

/-- The request line of the end-to-end property. -/
def REQ2 : String := "GET /capture.csv?nsamples=5&xrate=2000000&simulate=1 HTTP/1.1"

theorem digitChar_spec : ∀ d, d < 10 →
    (Nat.digitChar d).isDigit = true ∧ digitVal (Nat.digitChar d) = d := by
  decide

theorem ne_of_isDigit {c x : Char} (hc : c.isDigit = true) (hx : x.isDigit = false) :
    c ≠ x := by
  intro h
  rw [h, hx] at hc
  exact Bool.false_ne_true hc

theorem natDigsF_zero (fuel : ℕ) : natDigsF fuel 0 = [] := by
  cases fuel <;> rfl

theorem natDigsF_stable : ∀ fuel1 fuel2 n, n ≤ fuel1 → n ≤ fuel2 →
    natDigsF fuel1 n = natDigsF fuel2 n := by
  intro fuel1
  induction fuel1 with
  | zero =>
    intro fuel2 n h1 _
    have hn : n = 0 := Nat.le_zero.mp h1
    rw [hn, natDigsF_zero, natDigsF_zero]
  | succ f ih =>
    intro fuel2 n h1 h2
    cases n with
    | zero => rw [natDigsF_zero, natDigsF_zero]
    | succ m =>
      cases fuel2 with
      | zero => omega
      | succ f2 =>
        have hdiv : (m + 1) / 10 ≤ f ∧ (m + 1) / 10 ≤ f2 := by
          have := Nat.div_lt_self (Nat.succ_pos m) (by norm_num : (1 : ℕ) < 10)
          omega
        show natDigsF f ((m + 1) / 10) ++ [Nat.digitChar ((m + 1) % 10)]
            = natDigsF f2 ((m + 1) / 10) ++ [Nat.digitChar ((m + 1) % 10)]
        rw [ih f2 ((m + 1) / 10) hdiv.1 hdiv.2]

theorem natDigsAux_eq (n : ℕ) : natDigsAux n =
    if n = 0 then [] else natDigsAux (n / 10) ++ [Nat.digitChar (n % 10)] := by
  cases n with
  | zero => rfl
  | succ m =>
    rw [if_neg (Nat.succ_ne_zero m)]
    show natDigsF m ((m + 1) / 10) ++ [Nat.digitChar ((m + 1) % 10)] = _
    have hdiv : (m + 1) / 10 ≤ m := by
      have := Nat.div_lt_self (Nat.succ_pos m) (by norm_num : (1 : ℕ) < 10)
      omega
    rw [natDigsF_stable m ((m + 1) / 10) ((m + 1) / 10) hdiv (le_refl _)]
    rfl

theorem natDigsAux_digits (n : ℕ) : ∀ c ∈ natDigsAux n, c.isDigit = true := by
  induction n using Nat.strong_induction_on with
  | _ n ih =>
    rw [natDigsAux_eq]
    split
    · intro c hc
      simp at hc
    · intro c hc
      rename_i h
      rcases List.mem_append.mp hc with h1 | h2
      · exact ih (n / 10) (Nat.div_lt_self (Nat.pos_of_ne_zero h) (by norm_num)) c h1
      · have : c = Nat.digitChar (n % 10) := by simpa using h2
        rw [this]
        exact (digitChar_spec (n % 10) (Nat.mod_lt n (by norm_num))).1

theorem parseNatChars_append_digit (l : List Char) (c : Char) :
    parseNatChars (l ++ [c]) = parseNatChars l * 10 + digitVal c := by
  simp [parseNatChars, List.foldl_append]

theorem parseNatChars_natDigsAux (n : ℕ) : parseNatChars (natDigsAux n) = n := by
  induction n using Nat.strong_induction_on with
  | _ n ih =>
    rw [natDigsAux_eq]
    split
    · rename_i h
      simp [parseNatChars, h]
    · rename_i h
      rw [parseNatChars_append_digit,
        ih (n / 10) (Nat.div_lt_self (Nat.pos_of_ne_zero h) (by norm_num)),
        (digitChar_spec (n % 10) (Nat.mod_lt n (by norm_num))).2]
      omega

theorem parseNatChars_natStr (n : ℕ) : parseNatChars (natStr n) = n := by
  rw [natStr]
  split
  · rename_i h
    subst h
    decide
  · exact parseNatChars_natDigsAux n

theorem natStr_digits (n : ℕ) : ∀ c ∈ natStr n, c.isDigit = true := by
  rw [natStr]
  split
  · intro c hc
    simp at hc
    rw [hc]
    decide
  · exact natDigsAux_digits n

theorem natStr_ne_nil (n : ℕ) : natStr n ≠ [] := by
  rw [natStr]
  split
  · simp
  · rename_i h
    rw [natDigsAux_eq]
    simp [h]

theorem pad3_digits (m : ℕ) (hm : m < 1000) : ∀ c ∈ pad3 m, c.isDigit = true := by
  intro c hc
  rw [pad3] at hc
  simp at hc
  rcases hc with h | h | h <;> rw [h]
  · exact (digitChar_spec (m / 100) (by omega)).1
  · exact (digitChar_spec (m / 10 % 10) (by omega)).1
  · exact (digitChar_spec (m % 10) (by omega)).1

theorem parseNatChars_pad3 (m : ℕ) (hm : m < 1000) : parseNatChars (pad3 m) = m := by
  have h1 := (digitChar_spec (m / 100) (by omega)).2
  have h2 := (digitChar_spec (m / 10 % 10) (by omega)).2
  have h3 := (digitChar_spec (m % 10) (by omega)).2
  simp [pad3, parseNatChars, h1, h2, h3]
  omega

theorem abs_round3_sub (q : ℚ) : |round3 q - q| ≤ 1 / 2000 := by
  have h := abs_sub_round (1000 * q)
  rw [abs_sub_comm] at h
  have he : round3 q - q = ((round (1000 * q) : ℚ) - 1000 * q) / 1000 := by
    rw [round3]
    ring
  rw [he, abs_div]
  have : |(1000 : ℚ)| = 1000 := by norm_num
  rw [this]
  linarith

theorem takeWhile_append_all {p : Char → Bool} (l r : List Char)
    (h : ∀ c ∈ l, p c = true) : (l ++ r).takeWhile p = l ++ r.takeWhile p := by
  induction l with
  | nil => simp
  | cons c t ih =>
    have hc : p c = true := h c (by simp)
    simp [List.takeWhile_cons, hc]
    exact ih (fun x hx => h x (by simp [hx]))

theorem dropWhile_append_all {p : Char → Bool} (l r : List Char)
    (h : ∀ c ∈ l, p c = true) : (l ++ r).dropWhile p = r.dropWhile p := by
  induction l with
  | nil => simp
  | cons c t ih =>
    have hc : p c = true := h c (by simp)
    simp [List.dropWhile_cons, hc]
    exact ih (fun x hx => h x (by simp [hx]))

theorem fmt3Chars_mem (q : ℚ) :
    ∀ c ∈ fmt3Chars q, c = '-' ∨ c = '.' ∨ c.isDigit = true := by
  intro c hc
  rw [fmt3Chars] at hc
  rcases List.mem_append.mp hc with h | h
  · rcases List.mem_append.mp h with h1 | h1
    · left
      by_cases hq : q < 0
      · rw [if_pos hq] at h1
        simpa using h1
      · rw [if_neg hq] at h1
        simp at h1
    · right
      right
      exact natStr_digits _ c h1
  · rcases List.mem_cons.mp h with h1 | h1
    · right
      left
      exact h1
    · right
      right
      exact pad3_digits _ (Nat.mod_lt _ (by norm_num)) c h1

theorem fmt3Chars_ne_cr (q : ℚ) : '\r' ∉ fmt3Chars q := by
  intro h
  rcases fmt3Chars_mem q '\r' h with h1 | h1 | h1 <;> exact absurd h1 (by decide)

theorem fmt3Chars_ne_nil (q : ℚ) : fmt3Chars q ≠ [] := by
  apply List.ne_nil_of_length_pos
  rw [fmt3Chars]
  simp

theorem round_nonneg_of_nonneg {q : ℚ} (h : 0 ≤ q) : 0 ≤ round q := by
  rw [round_eq]
  exact Int.floor_nonneg.mpr (by linarith)

theorem round_nonpos_of_neg {q : ℚ} (h : q < 0) : round q ≤ 0 := by
  rw [round_eq]
  have : ⌊q + 1 / 2⌋ < 1 := Int.floor_lt.mpr (by push_cast; linarith)
  omega

theorem parseUnsigned_fmt3_core (a : ℕ) :
    parseUnsigned (natStr (a / 1000) ++ '.' :: pad3 (a % 1000)) = some ((a : ℚ) / 1000) := by
  have hm : a % 1000 < 1000 := Nat.mod_lt _ (by norm_num)
  have htw : (natStr (a / 1000) ++ '.' :: pad3 (a % 1000)).takeWhile Char.isDigit
      = natStr (a / 1000) := by
    rw [takeWhile_append_all _ _ (natStr_digits _), List.takeWhile_cons_of_neg (by decide)]
    simp
  have hdw : (natStr (a / 1000) ++ '.' :: pad3 (a % 1000)).dropWhile Char.isDigit
      = '.' :: pad3 (a % 1000) := by
    rw [dropWhile_append_all _ _ (natStr_digits _), List.dropWhile_cons_of_neg (by decide)]
  rw [parseUnsigned, htw, hdw]
  rw [if_neg (by simp [natStr_ne_nil])]
  rw [if_neg (by simp)]
  have hpadne : ((pad3 (a % 1000)).isEmpty) = false := by simp [pad3]
  have hpad : (pad3 (a % 1000)).all Char.isDigit = true := by
    rw [List.all_eq_true]
    exact pad3_digits _ hm
  rw [if_pos ⟨by simp, by simp [hpadne], by simpa using hpad⟩]
  rw [List.tail_cons, parseNatChars_natStr, parseNatChars_pad3 _ hm]
  have hlen : (pad3 (a % 1000)).length = 3 := by simp [pad3]
  rw [hlen]
  have hd : ((1000 : ℚ)) * ((a / 1000 : ℕ) : ℚ) + ((a % 1000 : ℕ) : ℚ) = (a : ℚ) := by
    exact_mod_cast Nat.div_add_mod a 1000
  congr 1
  rw [← hd]
  ring

theorem parseLine_fmt3 (q : ℚ) : parseLine (fmt3 q) = some (round3 q) := by
  have hdata : (fmt3 q).data = fmt3Chars q := rfl
  by_cases hq : q < 0
  · have hn : round (1000 * q) ≤ 0 := round_nonpos_of_neg (by linarith)
    have hsh : fmt3Chars q = '-' :: (natStr ((round (1000 * q)).natAbs / 1000) ++
        '.' :: pad3 ((round (1000 * q)).natAbs % 1000)) := by
      rw [fmt3Chars, if_pos hq]
      simp only [List.cons_append, List.nil_append, List.append_assoc]
    rw [parseLine, hdata, hsh]
    simp only [List.head?_cons, List.tail_cons]
    rw [if_pos trivial, parseUnsigned_fmt3_core]
    have h0 : (((round (1000 * q)).natAbs : ℤ)) = -(round (1000 * q)) :=
      Int.ofNat_natAbs_of_nonpos hn
    have hcast : (((round (1000 * q)).natAbs : ℚ)) = -((round (1000 * q) : ℚ)) := by
      rw [Int.cast_natAbs, abs_of_nonpos hn]
      push_cast
      ring
    rw [round3]
    simp only [Option.map_some']
    congr 1
    rw [hcast]
    ring
  · push_neg at hq
    have hn : 0 ≤ round (1000 * q) := round_nonneg_of_nonneg (by linarith)
    have hsh : fmt3Chars q = natStr ((round (1000 * q)).natAbs / 1000) ++
        '.' :: pad3 ((round (1000 * q)).natAbs % 1000) := by
      rw [fmt3Chars, if_neg (not_lt.mpr hq)]
      simp only [List.nil_append]
    have hhead : (fmt3 q).data.head? ≠ some '-' := by
      rw [hdata, hsh]
      rcases hne : natStr ((round (1000 * q)).natAbs / 1000) with _ | ⟨c, t⟩
      · exact absurd hne (natStr_ne_nil _)
      · have hcdig : c.isDigit = true := by
          apply natStr_digits
          rw [hne]
          simp
        simp only [List.cons_append, List.head?_cons]
        intro hc
        have hcm : c = '-' := by simpa using hc
        exact ne_of_isDigit hcdig (by decide) hcm
    rw [parseLine, if_neg hhead, hdata, hsh, parseUnsigned_fmt3_core]
    have h0 := Int.natAbs_of_nonneg hn
    have hcast : (((round (1000 * q)).natAbs : ℚ)) = ((round (1000 * q) : ℚ)) := by
      rw [Int.cast_natAbs, abs_of_nonneg hn]
    rw [round3, hcast]

theorem splitChars_crlf (t : List Char) :
    splitChars ('\r' :: '\n' :: t) = [] :: splitChars t := by
  rw [splitChars]
  simp

theorem splitChars_cons2 (c1 c2 : Char) (t : List Char) (h : ¬(c1 = '\r' ∧ c2 = '\n')) :
    splitChars (c1 :: c2 :: t) =
      (c1 :: (splitChars (c2 :: t)).headD []) :: (splitChars (c2 :: t)).tail := by
  rw [splitChars]
  simp [h]

theorem splitChars_no_cr (l : List Char) (h : '\r' ∉ l) : splitChars l = [l] := by
  induction l with
  | nil => simp [splitChars]
  | cons c t ih =>
    cases t with
    | nil => simp [splitChars]
    | cons c2 t2 =>
      have hc : c ≠ '\r' := fun hh => h (by simp [hh])
      rw [splitChars_cons2 c c2 t2 (by tauto)]
      have ht := ih (fun hm => h (List.mem_cons_of_mem _ hm))
      rw [ht]
      simp

theorem splitChars_append_crlf (l t : List Char) (h : '\r' ∉ l) :
    splitChars (l ++ '\r' :: '\n' :: t) = l :: splitChars t := by
  induction l with
  | nil => simpa using splitChars_crlf t
  | cons c l2 ih =>
    have hc : c ≠ '\r' := fun hh => h (by simp [hh])
    have hl2 : '\r' ∉ l2 := fun hm => h (List.mem_cons_of_mem _ hm)
    cases l2 with
    | nil =>
      simp only [List.nil_append, List.cons_append]
      rw [splitChars_cons2 c '\r' ('\n' :: t) (by tauto), splitChars_crlf]
      simp
    | cons c2 l3 =>
      simp only [List.cons_append] at ih ⊢
      rw [splitChars_cons2 c c2 (l3 ++ '\r' :: '\n' :: t) (by tauto), ih hl2]
      simp

theorem splitChars_joinChars (lls : List (List Char)) (hne : lls ≠ [])
    (h : ∀ l ∈ lls, '\r' ∉ l) : splitChars (joinChars lls) = lls := by
  induction lls with
  | nil => exact absurd rfl hne
  | cons l ls ih =>
    cases ls with
    | nil => exact splitChars_no_cr l (h l (by simp))
    | cons l2 ls2 =>
      have hj : joinChars (l :: l2 :: ls2) = l ++ '\r' :: '\n' :: joinChars (l2 :: ls2) := rfl
      rw [hj, splitChars_append_crlf _ _ (h l (by simp))]
      rw [ih (by simp) (fun x hx => h x (List.mem_cons_of_mem _ hx))]

theorem joinChars_ne_nil (lls : List (List Char)) (hne : lls ≠ [])
    (h : ∀ l ∈ lls, l ≠ []) : joinChars lls ≠ [] := by
  cases lls with
  | nil => exact absurd rfl hne
  | cons l ls =>
    cases ls with
    | nil => exact h l (by simp)
    | cons l2 ls2 =>
      have hj : joinChars (l :: l2 :: ls2) = l ++ '\r' :: '\n' :: joinChars (l2 :: ls2) := rfl
      rw [hj]
      simp

theorem crlfSplit_render (vals : List ℚ) (hne : vals ≠ []) :
    crlfSplit (render vals) = (vals.map fmt3) := by
  have hdata : (render vals).data = joinChars (vals.map fmt3Chars) := by
    show joinChars ((vals.map fmt3).map String.data) = joinChars (vals.map fmt3Chars)
    rw [List.map_map]
    rfl
  have hmapne : vals.map fmt3Chars ≠ [] := by simpa using hne
  have hlines : ∀ l ∈ vals.map fmt3Chars, '\r' ∉ l := by
    intro l hl
    rcases List.mem_map.mp hl with ⟨q, _, rfl⟩
    exact fmt3Chars_ne_cr q
  have hlinesne : ∀ l ∈ vals.map fmt3Chars, l ≠ [] := by
    intro l hl
    rcases List.mem_map.mp hl with ⟨q, _, rfl⟩
    exact fmt3Chars_ne_nil q
  rw [crlfSplit, hdata, if_neg (by simpa using joinChars_ne_nil _ hmapne hlinesne)]
  rw [splitChars_joinChars _ hmapne hlines, List.map_map]
  have : (String.mk ∘ fmt3Chars) = fmt3 := rfl
  rw [this]

theorem mapM_map_pointwise {f : ℚ → String} {g : String → Option ℚ} {k : ℚ → ℚ}
    (hg : ∀ a, g (f a) = some (k a)) (l : List ℚ) :
    (l.map f).mapM g = some (l.map k) := by
  induction l with
  | nil => rfl
  | cons x xs ih =>
    rw [List.map_cons, List.mapM_cons, hg x, ih]
    rfl

theorem matchesNumChars_core (a : ℕ) :
    matchesNumChars (natStr (a / 1000) ++ '.' :: pad3 (a % 1000)) = true := by
  have hm : a % 1000 < 1000 := Nat.mod_lt _ (by norm_num)
  have htw : (natStr (a / 1000) ++ '.' :: pad3 (a % 1000)).takeWhile Char.isDigit
      = natStr (a / 1000) := by
    rw [takeWhile_append_all _ _ (natStr_digits _), List.takeWhile_cons_of_neg (by decide)]
    simp
  have hdw : (natStr (a / 1000) ++ '.' :: pad3 (a % 1000)).dropWhile Char.isDigit
      = '.' :: pad3 (a % 1000) := by
    rw [dropWhile_append_all _ _ (natStr_digits _), List.dropWhile_cons_of_neg (by decide)]
  rw [matchesNumChars, htw, hdw, pad3]
  have h1 := (digitChar_spec (a % 1000 / 100) (by omega)).1
  have h2 := (digitChar_spec (a % 1000 / 10 % 10) (by omega)).1
  have h3 := (digitChar_spec (a % 1000 % 10) (by omega)).1
  simp [natStr_ne_nil, h1, h2, h3]

theorem matchesSigned_fmt3 (q : ℚ) : matchesSignedNumChars (fmt3Chars q) = true := by
  by_cases hq : q < 0
  · have hsh : fmt3Chars q = '-' :: (natStr ((round (1000 * q)).natAbs / 1000) ++
        '.' :: pad3 ((round (1000 * q)).natAbs % 1000)) := by
      rw [fmt3Chars, if_pos hq]
      simp only [List.cons_append, List.nil_append, List.append_assoc]
    rw [matchesSignedNumChars, hsh]
    simp only [List.head?_cons, List.tail_cons]
    rw [if_pos trivial]
    exact matchesNumChars_core _
  · have hsh : fmt3Chars q = natStr ((round (1000 * q)).natAbs / 1000) ++
        '.' :: pad3 ((round (1000 * q)).natAbs % 1000) := by
      rw [fmt3Chars, if_neg hq]
      simp only [List.nil_append]
    have hhead : (fmt3Chars q).head? ≠ some '-' := by
      rw [hsh]
      rcases hne : natStr ((round (1000 * q)).natAbs / 1000) with _ | ⟨c, t⟩
      · exact absurd hne (natStr_ne_nil _)
      · have hcdig : c.isDigit = true := by
          apply natStr_digits
          rw [hne]
          simp
        simp only [List.cons_append, List.head?_cons]
        intro hc
        have hcm : c = '-' := by simpa using hc
        exact ne_of_isDigit hcdig (by decide) hcm
    rw [matchesSignedNumChars, if_neg hhead, hsh]
    exact matchesNumChars_core _

/-- C8: For every CaptureResult, rendering it as the newline-joined fixed-point
text (one "%1.3f"-formatted number per line) and re-parsing each line back to a
number reproduces the original values to 3-decimal precision: re-parsing the
rendered text yields exactly the values rounded to three decimals, and each
such value differs from the original by at most 1/2000 = 5e-4. -/
theorem C8_round_trip :
    (∀ vals : List ℚ, reparse (render vals) = some (vals.map round3)) ∧
    ∀ q : ℚ, |round3 q - q| ≤ 1 / 2000 := by
  constructor
  · intro vals
    cases vals with
    | nil => rfl
    | cons v vs =>
      rw [reparse, crlfSplit_render _ (by simp)]
      exact mapM_map_pointwise parseLine_fmt3 _
  · exact abs_round3_sub

/-- C1: For every requested sample_count, adc_capture clamps it to the nearest
bound of the closed range from MIN_SAMPLES to MAX_SAMPLES (10 and 1000) before
allocating the sample buffer, and the returned CaptureResult has length equal
to the clamped count, never the raw requested count when that lies outside the
range. -/
theorem C1_capture_clamps : ∀ (ps : Params) (raw : ℕ → ℕ),
    (adc_capture ps raw).nsamp = (clampSamples ps.nsamples).toNat ∧
    (adc_capture ps raw).vals.length = (clampSamples ps.nsamples).toNat ∧
    MIN_SAMPLES ≤ clampSamples ps.nsamples ∧
    clampSamples ps.nsamples ≤ MAX_SAMPLES ∧
    (ps.nsamples < MIN_SAMPLES → clampSamples ps.nsamples = MIN_SAMPLES) ∧
    (MAX_SAMPLES < ps.nsamples → clampSamples ps.nsamples = MAX_SAMPLES) ∧
    (MIN_SAMPLES ≤ ps.nsamples → ps.nsamples ≤ MAX_SAMPLES →
      clampSamples ps.nsamples = ps.nsamples) ∧
    ((ps.nsamples < MIN_SAMPLES ∨ MAX_SAMPLES < ps.nsamples) →
      ((adc_capture ps raw).vals.length : ℤ) ≠ ps.nsamples) := by
  intro ps raw
  have hlen : (adc_capture ps raw).vals.length = (clampSamples ps.nsamples).toNat := by
    simp [adc_capture]
  refine ⟨rfl, hlen, ?_, ?_, fun h => ?_, fun h => ?_, fun h1 h2 => ?_, fun h => ?_⟩
  · simp only [clampSamples, MIN_SAMPLES, MAX_SAMPLES]
    omega
  · simp only [clampSamples, MIN_SAMPLES, MAX_SAMPLES]
    omega
  · simp only [clampSamples, MIN_SAMPLES, MAX_SAMPLES] at *
    omega
  · simp only [clampSamples, MIN_SAMPLES, MAX_SAMPLES] at *
    omega
  · simp only [clampSamples, MIN_SAMPLES, MAX_SAMPLES] at *
    omega
  · rw [hlen]
    simp only [clampSamples, MIN_SAMPLES, MAX_SAMPLES] at *
    omega

/-- C1 witness: a request of 5 samples is below MIN_SAMPLES and the capture
length differs from the raw request. -/
theorem C1_capture_clamps_witness :
    (5 : ℤ) < MIN_SAMPLES ∧
    ((adc_capture { nsamples := 5, xrate := 100000, simulate := 0 } noiseZero).vals.length : ℤ) ≠ 5 :=
  ⟨by decide,
   (C1_capture_clamps { nsamples := 5, xrate := 100000, simulate := 0 }
      noiseZero).2.2.2.2.2.2.2 (Or.inl (by decide))⟩

theorem floor_div_rate (r : ℤ) :
    ⌊(48000000 : ℚ) / (clampRate r : ℚ)⌋ = (48000000 : ℤ) / clampRate r := by
  have h1 : 0 ≤ clampRate r := by
    simp only [clampRate, MIN_RATE, MAX_RATE]
    omega
  have h2 : clampRate r = ((clampRate r).toNat : ℤ) := (Int.toNat_of_nonneg h1).symm
  rw [h2]
  have h3 := Rat.floor_intCast_div_natCast 48000000 ((clampRate r).toNat)
  rw [← h3]
  norm_cast

/-- C5: For every stored xrate value, the value written to the ADC
clock-divider register equals (floor(48000000 / clamp(xrate, MIN_RATE,
MAX_RATE)) - 1) shifted left by 8 bits: the divider is computed from the
clamped rate (clamping to the nearest bound), not the raw rate, and its low
8 fractional bits are zero. -/
theorem C5_divider : ∀ (ps : Params) (raw : ℕ → ℕ),
    (adc_capture ps raw).divReg =
      (⌊(48000000 : ℚ) / (clampRate ps.xrate : ℚ)⌋ - 1) * 2 ^ 8 ∧
    (adc_capture ps raw).divReg % 2 ^ 8 = 0 ∧
    adc_capture ps raw = adc_capture { ps with xrate := clampRate ps.xrate } raw ∧
    MIN_RATE ≤ clampRate ps.xrate ∧ clampRate ps.xrate ≤ MAX_RATE ∧
    (ps.xrate < MIN_RATE → clampRate ps.xrate = MIN_RATE) ∧
    (MAX_RATE < ps.xrate → clampRate ps.xrate = MAX_RATE) ∧
    (MIN_RATE ≤ ps.xrate → ps.xrate ≤ MAX_RATE → clampRate ps.xrate = ps.xrate) := by
  intro ps raw
  refine ⟨?_, ?_, ?_, ?_, ?_, fun h => ?_, fun h => ?_, fun h1 h2 => ?_⟩
  · show (48000000 / clampRate ps.xrate - 1) * 2 ^ 8 = _
    rw [floor_div_rate]
  · show (48000000 / clampRate ps.xrate - 1) * 2 ^ 8 % 2 ^ 8 = 0
    exact Int.mul_emod_left _ _
  · have hc : clampRate (clampRate ps.xrate) = clampRate ps.xrate := by
      simp only [clampRate, MIN_RATE, MAX_RATE]
      omega
    simp [adc_capture, hc]
  · simp only [clampRate, MIN_RATE, MAX_RATE]
    omega
  · simp only [clampRate, MIN_RATE, MAX_RATE]
    omega
  · simp only [clampRate, MIN_RATE, MAX_RATE] at *
    omega
  · simp only [clampRate, MIN_RATE, MAX_RATE] at *
    omega
  · simp only [clampRate, MIN_RATE, MAX_RATE] at *
    omega

/-- C5 witness: a stored rate of 2000000 is above MAX_RATE, is clamped to it,
and the divider register value is computed from the clamped rate. -/
theorem C5_divider_witness :
    clampRate 2000000 = MAX_RATE ∧
    (adc_capture { nsamples := 20, xrate := 2000000, simulate := 0 } noiseZero).divReg =
      (⌊(48000000 : ℚ) / (clampRate 2000000 : ℚ)⌋ - 1) * 2 ^ 8 :=
  ⟨(C5_divider { nsamples := 20, xrate := 2000000, simulate := 0 }
      noiseZero).2.2.2.2.2.2.1 (by decide),
   (C5_divider { nsamples := 20, xrate := 2000000, simulate := 0 } noiseZero).1⟩

theorem simList_length (f : ℚ) (noise : ℕ → ℕ) :
    ∀ (cnt : ℕ) (sc : ℚ × ℚ) (idx : ℕ), (simList f noise sc idx cnt).length = cnt := by
  intro cnt
  induction cnt with
  | zero => intro sc idx; rfl
  | succ k ih =>
    intro sc idx
    rw [simList]
    simp [ih]

theorem simList_get (f : ℚ) (noise : ℕ → ℕ) :
    ∀ (cnt n m idx : ℕ), n < cnt →
      (simList f noise (simState f m) idx cnt).get? n =
        some (((simState f (m + n + 1)).1 + 1) * ((simState f (m + n + 1)).2 + 1) +
          (noise (idx + n) : ℚ) / 300) := by
  intro cnt
  induction cnt with
  | zero => intro n m idx h; exact absurd h (Nat.not_lt_zero n)
  | succ k ih =>
    intro n m idx h
    cases n with
    | zero =>
      have hstep : simStep f (simState f m) = simState f (m + 1) := rfl
      rw [simList]
      simp only [hstep, List.get?_cons_zero, Nat.add_zero]
    | succ n2 =>
      have hstep : simStep f (simState f m) = simState f (m + 1) := rfl
      rw [simList]
      simp only [hstep, List.get?_cons_succ]
      have h2 : n2 < k := by omega
      rw [ih n2 (m + 1) (idx + 1) h2]
      have e1 : m + 1 + n2 + 1 = m + (n2 + 1) + 1 := by omega
      have e2 : idx + 1 + n2 = idx + (n2 + 1) := by omega
      rw [e1, e2]

/-- C6: For every sample_count N at least 0, the Simulated Source returns
exactly N values, the n-th value equals (s + 1) * (c + 1) plus a noise term,
with s and c produced by the recurrence s += c / f, c -= s / f starting from
s = 1, c = 0 and f = N / 20.0; when the random draw is at most 100 the noise
term lies in the closed interval from 0 to 1/3. -/
theorem C6_sim_values : ∀ (N : ℕ) (noise : ℕ → ℕ),
    (adc_sim_vals (N : ℤ) noise).length = N ∧
    (∀ n, n < N → (adc_sim_vals (N : ℤ) noise).get? n =
      some (((simState ((N : ℚ) / 20) (n + 1)).1 + 1) *
        ((simState ((N : ℚ) / 20) (n + 1)).2 + 1) + (noise n : ℚ) / 300)) ∧
    (∀ n, noise n ≤ 100 → 0 ≤ (noise n : ℚ) / 300 ∧ (noise n : ℚ) / 300 ≤ 1 / 3) := by
  intro N noise
  have hf : (((N : ℤ) : ℚ)) / 20 = (N : ℚ) / 20 := by push_cast; ring
  refine ⟨?_, ?_, ?_⟩
  · rw [adc_sim_vals, simList_length]
    simp
  · intro n hn
    rw [adc_sim_vals, hf]
    have h0 : ((1 : ℚ), (0 : ℚ)) = simState ((N : ℚ) / 20) 0 := rfl
    rw [h0, simList_get]
    · simp
    · simpa using hn
  · intro n hb
    constructor
    · positivity
    · have hle : ((noise n : ℚ)) ≤ 100 := by exact_mod_cast hb
      linarith

/-- C6 witness: for N = 2 and the constant draw 7 the first value is the
recurrence value plus 7/300, and the noise term lies in the noise interval. -/
theorem C6_sim_values_witness :
    (adc_sim_vals ((2 : ℕ) : ℤ) (fun _ => 7)).get? 0 =
      some (((simState ((2 : ℚ) / 20) 1).1 + 1) * ((simState ((2 : ℚ) / 20) 1).2 + 1) +
        ((7 : ℕ) : ℚ) / 300) ∧
    0 ≤ ((7 : ℕ) : ℚ) / 300 ∧ ((7 : ℕ) : ℚ) / 300 ≤ 1 / 3 := by
  refine ⟨?_, ?_⟩
  · have h := (C6_sim_values 2 (fun _ => 7)).2.1 0 (by decide)
    simpa using h
  · exact (C6_sim_values 2 (fun _ => 7)).2.2 0 (by decide)

/-- C9 counterexample: a request can store nsamples = -5, a value below
MIN_SAMPLES, for which the Simulated Source produces 0 values, not -5 of them,
so the claim fails for this reachable stored value. -/
theorem C9_counterexample :
    ((get_fname_params "GET /i?nsamples=-5 HTTP/1.1" parameters).2).nsamples = -5 ∧
    (-5 : ℤ) < MIN_SAMPLES ∧
    (adc_sim_vals (-5) noiseZero).length = 0 ∧
    ¬((adc_sim_vals (-5) noiseZero).length : ℤ) = -5 := by
  decide

/-- C9 (amended): the Simulated Source reads the stored nsamples value without
clamping it: for every nonnegative stored nsamples N a simulate-routed capture
produces exactly N output values even when N is below MIN_SAMPLES or above
MAX_SAMPLES, unlike the hardware capture path, whose buffer length is the
clamped count (a negative stored nsamples yields an empty output, as the
counterexample records). -/
theorem C9_sim_no_clamp : ∀ (N : ℕ) (ps : Params) (noise raw : ℕ → ℕ),
    (adc_sim_vals (N : ℤ) noise).length = N ∧
    (adc_capture { ps with nsamples := (N : ℤ) } raw).vals.length =
      (clampSamples (N : ℤ)).toNat ∧
    ((N : ℤ) < MIN_SAMPLES →
      (adc_sim_vals (N : ℤ) noise).length ≠
        (adc_capture { ps with nsamples := (N : ℤ) } raw).vals.length) ∧
    (MAX_SAMPLES < (N : ℤ) →
      (adc_sim_vals (N : ℤ) noise).length ≠
        (adc_capture { ps with nsamples := (N : ℤ) } raw).vals.length) := by
  intro N ps noise raw
  have hs : (adc_sim_vals (N : ℤ) noise).length = N := by
    rw [adc_sim_vals, simList_length]
    simp
  have hc : (adc_capture { ps with nsamples := (N : ℤ) } raw).vals.length =
      (clampSamples (N : ℤ)).toNat := by
    simp [adc_capture]
  refine ⟨hs, hc, fun h => ?_, fun h => ?_⟩
  · rw [hs, hc]
    simp only [clampSamples, MIN_SAMPLES, MAX_SAMPLES] at *
    omega
  · rw [hs, hc]
    simp only [clampSamples, MIN_SAMPLES, MAX_SAMPLES] at *
    omega

/-- C9 witness: for the stored count 5, below MIN_SAMPLES, the simulated
output length differs from the clamped hardware buffer length. -/
theorem C9_sim_no_clamp_witness :
    ((5 : ℕ) : ℤ) < MIN_SAMPLES ∧
    (adc_sim_vals ((5 : ℕ) : ℤ) noiseZero).length ≠
      (adc_capture { nsamples := ((5 : ℕ) : ℤ), xrate := 100000, simulate := 0 }
        noiseZero).vals.length :=
  ⟨by decide,
   (C9_sim_no_clamp 5 { nsamples := 5, xrate := 100000, simulate := 0 }
      noiseZero noiseZero).2.2.1 (by decide)⟩

theorem strData_append (s t : String) : (s ++ t).data = s.data ++ t.data := rfl

theorem strMk_data (s : String) : String.mk s.data = s := rfl

theorem applyParam_nsamples (ps : Params) (pr : String)
    (h : validFor "nsamples" pr = false) : (applyParam ps pr).nsamples = ps.nsamples := by
  rw [validFor] at h
  rw [applyParam]
  rcases hsp : pySplitSep '=' pr.data with _ | ⟨k, _ | ⟨v, tl⟩⟩
  · simp
  · simp
  · rw [hsp] at h
    simp only [Bool.and_eq_false_iff, beq_eq_false_iff_ne, ne_eq] at h
    rcases hp : pyIntChars (replaceOn v) with _ | n
    · simp only [hp]
      split_ifs <;> rfl
    · have hne : ¬(String.mk k = "nsamples") := by
        rcases h with h | h
        · exact h
        · rw [hp] at h
          simp at h
      simp only [hp]
      split_ifs <;> simp_all

theorem applyParam_xrate (ps : Params) (pr : String)
    (h : validFor "xrate" pr = false) : (applyParam ps pr).xrate = ps.xrate := by
  rw [validFor] at h
  rw [applyParam]
  rcases hsp : pySplitSep '=' pr.data with _ | ⟨k, _ | ⟨v, tl⟩⟩
  · simp
  · simp
  · rw [hsp] at h
    simp only [Bool.and_eq_false_iff, beq_eq_false_iff_ne, ne_eq] at h
    rcases hp : pyIntChars (replaceOn v) with _ | n
    · simp only [hp]
      split_ifs <;> rfl
    · have hne : ¬(String.mk k = "xrate") := by
        rcases h with h | h
        · exact h
        · rw [hp] at h
          simp at h
      simp only [hp]
      split_ifs <;> simp_all

theorem applyParam_simulate (ps : Params) (pr : String)
    (h : validFor "simulate" pr = false) : (applyParam ps pr).simulate = ps.simulate := by
  rw [validFor] at h
  rw [applyParam]
  rcases hsp : pySplitSep '=' pr.data with _ | ⟨k, _ | ⟨v, tl⟩⟩
  · simp
  · simp
  · rw [hsp] at h
    simp only [Bool.and_eq_false_iff, beq_eq_false_iff_ne, ne_eq] at h
    rcases hp : pyIntChars (replaceOn v) with _ | n
    · simp only [hp]
      split_ifs <;> rfl
    · have hne : ¬(String.mk k = "simulate") := by
        rcases h with h | h
        · exact h
        · rw [hp] at h
          simp at h
      simp only [hp]
      split_ifs <;> simp_all

theorem foldl_applyParam_nsamples (prs : List String) :
    ∀ ps : Params, (∀ pr ∈ prs, validFor "nsamples" pr = false) →
      (prs.foldl applyParam ps).nsamples = ps.nsamples := by
  induction prs with
  | nil => intro ps _; rfl
  | cons p rest ih =>
    intro ps h
    rw [List.foldl_cons, ih _ (fun x hx => h x (List.mem_cons_of_mem _ hx)),
      applyParam_nsamples ps p (h p (by simp))]

theorem foldl_applyParam_xrate (prs : List String) :
    ∀ ps : Params, (∀ pr ∈ prs, validFor "xrate" pr = false) →
      (prs.foldl applyParam ps).xrate = ps.xrate := by
  induction prs with
  | nil => intro ps _; rfl
  | cons p rest ih =>
    intro ps h
    rw [List.foldl_cons, ih _ (fun x hx => h x (List.mem_cons_of_mem _ hx)),
      applyParam_xrate ps p (h p (by simp))]

theorem foldl_applyParam_simulate (prs : List String) :
    ∀ ps : Params, (∀ pr ∈ prs, validFor "simulate" pr = false) →
      (prs.foldl applyParam ps).simulate = ps.simulate := by
  induction prs with
  | nil => intro ps _; rfl
  | cons p rest ih =>
    intro ps h
    rw [List.foldl_cons, ih _ (fun x hx => h x (List.mem_cons_of_mem _ hx)),
      applyParam_simulate ps p (h p (by simp))]

theorem get_fname_params_snd (line : String) (ps : Params) :
    (get_fname_params line ps).2 =
      (queryPieces line).foldl applyParam { ps with simulate := 0 } := by
  rcases hsp : pySplit line with _ | ⟨a, t⟩
  · simp [get_fname_params, queryPieces, hsp]
  · rcases t with _ | ⟨b, r⟩
    · simp [get_fname_params, queryPieces, hsp]
    · simp [get_fname_params, queryPieces, hsp]

/-- C3 counterexample: for the request line with no query at all, the stored
simulate value changes from 1 to 0, so the stored value for an absent key does
not always equal its value before the request: get_fname_params resets
simulate at the start of every request. -/
theorem C3_counterexample :
    ({ nsamples := 20, xrate := 100000, simulate := 1 } : Params).simulate = 1 ∧
    ((get_fname_params "GET / HTTP/1.1"
      { nsamples := 20, xrate := 100000, simulate := 1 }).2).simulate = 0 ∧
    (0 : ℤ) ≠ 1 := by
  decide

/-- C3 (amended): for the keys nsamples and xrate, if every query pair of the
request either fails integer parsing or names a different key (in particular
when the key is absent), the stored value for that key after handling the
request equals its value before; the simulate key instead is unconditionally
reset to 0 at the start of every request, so with no valid simulate pair its
stored value after the request is 0 regardless of its previous value. -/
theorem C3_param_retention : ∀ (line : String) (ps : Params),
    ((queryPieces line).all (fun pr => !validFor "nsamples" pr) = true →
      ((get_fname_params line ps).2).nsamples = ps.nsamples) ∧
    ((queryPieces line).all (fun pr => !validFor "xrate" pr) = true →
      ((get_fname_params line ps).2).xrate = ps.xrate) ∧
    ((queryPieces line).all (fun pr => !validFor "simulate" pr) = true →
      ((get_fname_params line ps).2).simulate = 0) := by
  intro line ps
  refine ⟨fun h => ?_, fun h => ?_, fun h => ?_⟩
  · rw [get_fname_params_snd]
    rw [foldl_applyParam_nsamples _ _ (fun pr hpr => by
      have := List.all_eq_true.mp h pr hpr
      simpa using this)]
  · rw [get_fname_params_snd]
    rw [foldl_applyParam_xrate _ _ (fun pr hpr => by
      have := List.all_eq_true.mp h pr hpr
      simpa using this)]
  · rw [get_fname_params_snd]
    rw [foldl_applyParam_simulate _ _ (fun pr hpr => by
      have := List.all_eq_true.mp h pr hpr
      simpa using this)]

/-- C3 witness: a request with no query retains nsamples and xrate and leaves
simulate at 0. -/
theorem C3_param_retention_witness :
    ((get_fname_params "GET / HTTP/1.1"
      { nsamples := 20, xrate := 100000, simulate := 1 }).2).nsamples = 20 ∧
    ((get_fname_params "GET / HTTP/1.1"
      { nsamples := 20, xrate := 100000, simulate := 1 }).2).xrate = 100000 ∧
    ((get_fname_params "GET / HTTP/1.1"
      { nsamples := 20, xrate := 100000, simulate := 1 }).2).simulate = 0 := by
  have h := C3_param_retention "GET / HTTP/1.1"
    { nsamples := 20, xrate := 100000, simulate := 1 }
  exact ⟨h.1 (by decide), h.2.1 (by decide), h.2.2 (by decide)⟩

theorem pySplitSep_no_sep (sep : Char) (w : List Char) (h : sep ∉ w) :
    pySplitSep sep w = [w] := by
  induction w with
  | nil => rfl
  | cons c t ih =>
    have hc : c ≠ sep := fun hh => h (by simp [hh])
    rw [pySplitSep, if_neg hc, ih (fun hm => h (List.mem_cons_of_mem _ hm))]
    simp

theorem pySplitSep_append (sep : Char) (w t : List Char) (h : sep ∉ w) :
    pySplitSep sep (w ++ sep :: t) = w :: pySplitSep sep t := by
  induction w with
  | nil =>
    simp only [List.nil_append]
    rw [pySplitSep, if_pos rfl]
  | cons c w2 ih =>
    have hc : c ≠ sep := fun hh => h (by simp [hh])
    simp only [List.cons_append]
    rw [pySplitSep, if_neg hc, ih (fun hm => h (List.mem_cons_of_mem _ hm))]
    simp

/-- C7 counterexample: for the query pair nsamples=57=9 the code splits on
every sign of equality and hands over the middle piece 57, not the whole text
57=9 after the first sign; parsing succeeds and stores 57, whereas the value
the claim describes would fail integer parsing and leave the previous value
20 untouched. -/
theorem C7_counterexample :
    handedValue "nsamples=57=9" = some "57" ∧
    some "57" ≠ some "57=9" ∧
    pyInt "57=9" = none ∧
    parameters.nsamples = 20 ∧
    ((get_fname_params "GET /i?nsamples=57=9 HTTP/1.1" parameters).2).nsamples = 57 := by
  decide

/-- C7 (amended): the Request Router splits a query pair on every sign of
equality, and the value handed to the parameter store is the piece between the
first and the second sign: for a pair of the form key=v the handed value is v,
and for key=v=w (a value itself containing the separator) the handed value is
still v, not the entire text after the first separator. -/
theorem C7_split_on_every_eq : ∀ (k v w : String),
    '=' ∉ k.data → '=' ∉ v.data →
    handedValue (k ++ "=" ++ v ++ "=" ++ w) = some v ∧
    handedValue (k ++ "=" ++ v) = some v := by
  intro k v w hk hv
  have he : ("=" : String).data = ['='] := rfl
  constructor
  · have hdata : (k ++ "=" ++ v ++ "=" ++ w).data
        = k.data ++ '=' :: (v.data ++ '=' :: w.data) := by
      simp [strData_append, he]
    rw [handedValue, hdata, pySplitSep_append _ _ _ hk, pySplitSep_append _ _ _ hv]
  · have hdata : (k ++ "=" ++ v).data = k.data ++ '=' :: v.data := by
      simp [strData_append, he]
    rw [handedValue, hdata, pySplitSep_append _ _ _ hk, pySplitSep_no_sep _ _ hv]

/-- C7 witness: for the pair simulate=1=2 the handed value is the middle
piece 1. -/
theorem C7_split_on_every_eq_witness :
    '=' ∉ ("simulate" : String).data ∧ '=' ∉ ("1" : String).data ∧
    handedValue ("simulate" ++ "=" ++ "1" ++ "=" ++ "2") = some "1" :=
  ⟨by decide, by decide,
   (C7_split_on_every_eq "simulate" "1" "2" (by decide) (by decide)).1⟩

/-- C4: evaluation of the dispatch at the failing request lines: a data.csv
request raises NameError (the name DATA_FNAME used on rp_adc_server.py line
145 is not defined in that module), and a capture.csv request raises TypeError
(line 149 passes three arguments to ESP32.put_http_text, which accepts only
the text), so the handler does not produce a response for these lines; other
request lines are answered. -/
theorem C4_uncaught_errors :
    (handle_request "GET /data.csv HTTP/1.1" parameters (fun _ => false)
      noiseZero noiseZero).2 = Except.error PyError.nameError ∧
    (handle_request "GET /capture.csv HTTP/1.1" parameters (fun _ => false)
      noiseZero noiseZero).2 = Except.error PyError.typeError ∧
    (handle_request "GET / HTTP/1.1" parameters (fun _ => false)
      noiseZero noiseZero).2 = Except.ok (Response.fileResp "/rpscope.html") :=
  ⟨rfl, rfl, rfl⟩

theorem leadsWith_self (p r : List Char) : leadsWith p (p ++ r) = true := by
  induction p with
  | nil => rfl
  | cons c t ih => simp [leadsWith, ih]

theorem leadsWith_mismatch (p c : Char) (ps l : List Char) (h : c ≠ p) :
    leadsWith (p :: ps) (c :: l) = false := by
  have hb : (p == c) = false := beq_eq_false_iff_ne.mpr (fun hh => h hh.symm)
  have he : leadsWith (p :: ps) (c :: l) = (p == c && leadsWith ps l) := rfl
  rw [he, hb, Bool.false_and]

theorem findAfter_cons_neg (pat : List Char) (c : Char) (rest : List Char)
    (h : leadsWith pat (c :: rest) = false) :
    findAfter pat (c :: rest) = findAfter pat rest := by
  rw [findAfter, if_neg (by simp [h])]

theorem findAfter_pos (pat l : List Char) (h : leadsWith pat l = true) :
    findAfter pat l = some (l.drop pat.length) := by
  cases l with
  | nil =>
    cases pat with
    | nil => rfl
    | cons p ps => simp [leadsWith] at h
  | cons c rest => rw [findAfter, if_pos h]

theorem findAfter_skip (p : Char) (ps xs rest : List Char) (h : ∀ c ∈ xs, c ≠ p) :
    findAfter (p :: ps) (xs ++ rest) = findAfter (p :: ps) rest := by
  induction xs with
  | nil => simp
  | cons c t ih =>
    have hc : c ≠ p := h c (by simp)
    simp only [List.cons_append]
    rw [findAfter_cons_neg _ _ _ (leadsWith_mismatch p c _ _ hc),
      ih (fun x hx => h x (by simp [hx]))]

theorem findAfter_pat4_step2 (l : List Char) (h : l.head? ≠ some '\r') :
    findAfter ['\r', '\n', '\r', '\n'] ('\r' :: '\n' :: l) =
      findAfter ['\r', '\n', '\r', '\n'] l := by
  have h1 : leadsWith ['\r', '\n', '\r', '\n'] ('\r' :: '\n' :: l) = false := by
    show (('\r' : Char) == '\r' && (('\n' : Char) == '\n' &&
      leadsWith ['\r', '\n'] l)) = false
    cases l with
    | nil => rfl
    | cons c t =>
      have hc : c ≠ '\r' := by
        intro hh
        exact h (by rw [hh]; rfl)
      rw [leadsWith_mismatch _ _ _ _ hc]
      rfl
  have h2 : leadsWith ['\r', '\n', '\r', '\n'] ('\n' :: l) = false :=
    leadsWith_mismatch _ _ _ _ (by decide)
  rw [findAfter_cons_neg _ '\r' _ h1, findAfter_cons_neg _ '\n' _ h2]

/-- C10: every response declares a Content-Length header equal to the exact
length of the body that follows: put_http_text declares len(text) and its body
after the first blank line is exactly the text, and the fixed not-found
response declares 14, which equals the length of its body File not found. -/
theorem C10_content_length : ∀ t : String,
    declaredCL (put_http_text t) = some t.length ∧
    bodyOf (put_http_text t) = some t ∧
    declaredCL NOT_FOUND = some 14 ∧
    bodyOf NOT_FOUND = some "File not found" ∧
    ("File not found" : String).length = 14 := by
  intro t
  have hdata : (put_http_text t).data =
      "HTTP/1.1 200 OK\r\n".data ++ ("Content-Length: ".data ++ (natStr t.length ++
        ('\r' :: '\n' :: ("Content-type text/html".data ++
          ('\r' :: '\n' :: '\r' :: '\n' :: t.data))))) := by
    show ((((HTTP_OK ++ contentLenHdr t.length) ++ contentTypeHdr "text/html") ++
      HEAD_END) ++ t).data = _
    simp only [contentLenHdr, contentTypeHdr, strData_append]
    have c2 : ('\r' :: '\n' :: ("Content-type text/html".data ++
        ('\r' :: '\n' :: '\r' :: '\n' :: t.data)))
        = "\r\n".data ++ ("Content-type ".data ++ ("text/html".data ++
          ("\r\n".data ++ ("\r\n".data ++ t.data)))) := by
      have e1 : ("\r\n" : String).data = ['\r', '\n'] := rfl
      simp [e1, List.append_assoc]
    rw [c2]
    simp only [List.append_assoc]
    rfl
  have hdata2 : (put_http_text t).data =
      "HTTP/1.1 200 OK".data ++ ('\r' :: '\n' :: ("Content-Length: ".data ++
        (natStr t.length ++ ('\r' :: '\n' :: ("Content-type text/html".data ++
          ('\r' :: '\n' :: '\r' :: '\n' :: t.data)))))) := by
    rw [hdata]
    have e1 : ("HTTP/1.1 200 OK\r\n" : String).data
        = "HTTP/1.1 200 OK".data ++ ['\r', '\n'] := by decide
    rw [e1, List.append_assoc]
    rfl
  refine ⟨?_, ?_, by decide, by decide, by decide⟩
  · have hpat : ("Content-Length: " : String).data
        = 'C' :: ("ontent-Length: " : String).data := by decide
    rw [declaredCL, hdata, hpat]
    rw [findAfter_skip _ _ _ _ (by decide)]
    rw [findAfter_pos _ _ (leadsWith_self _ _), List.drop_left]
    simp only [Option.map_some']
    rw [takeWhile_append_all _ _ (natStr_digits _),
      List.takeWhile_cons_of_neg (by decide)]
    simp [parseNatChars_natStr]
  · have hCL : ("Content-Length: " : String).data
        = 'C' :: ("ontent-Length: " : String).data := by decide
    have hCT : ("Content-type text/html" : String).data
        = 'C' :: ("ontent-type text/html" : String).data := by decide
    rw [bodyOf, hdata2]
    rw [findAfter_skip _ _ _ _ (by decide)]
    rw [findAfter_pat4_step2 _ (by rw [hCL]; simp)]
    rw [findAfter_skip _ _ _ _ (by decide)]
    rw [findAfter_skip _ _ _ _
      (fun c hc => ne_of_isDigit (natStr_digits _ c hc) (by decide))]
    rw [findAfter_pat4_step2 _ (by rw [hCT]; simp)]
    rw [findAfter_skip _ _ _ _ (by decide)]
    have hlw : leadsWith ['\r', '\n', '\r', '\n']
        ('\r' :: '\n' :: '\r' :: '\n' :: t.data) = true := rfl
    rw [findAfter_pos _ _ hlw]
    simp [strMk_data]

theorem fmt3_neg_not_matches (q : ℚ) (hq : q < 0) : matchesNumLine (fmt3 q) = false := by
  have hsh : fmt3Chars q = '-' :: (natStr ((round (1000 * q)).natAbs / 1000) ++
      '.' :: pad3 ((round (1000 * q)).natAbs % 1000)) := by
    rw [fmt3Chars, if_pos hq]
    simp only [List.cons_append, List.nil_append, List.append_assoc]
  have hd : (fmt3 q).data = fmt3Chars q := rfl
  rw [matchesNumLine, hd, hsh, matchesNumChars]
  rw [List.takeWhile_cons_of_neg (by decide)]
  simp

/-- C2 counterexample: for the request line GET /capture.csv?nsamples=5&
xrate=2000000&simulate=1, the stored rate after parsing is the raw 2000000,
not MAX_RATE (the simulate path never consumes, hence never clamps, it), and
the simulated body lines do not all match the digits-dot-three-digits pattern:
with f = 5/20 the recurrence makes the first value -6 plus nonnegative noise,
so its line carries a leading minus sign. -/
theorem C2_counterexample :
    ((get_fname_params REQ2 parameters).2).xrate = 2000000 ∧
    ((get_fname_params REQ2 parameters).2).xrate ≠ MAX_RATE ∧
    (crlfSplit (adc_sim_text (get_fname_params REQ2 parameters).2 noiseZero)).all
      matchesNumLine = false := by
  refine ⟨by decide, by decide, ?_⟩
  have hps : (get_fname_params REQ2 parameters).2
      = { nsamples := 5, xrate := 2000000, simulate := 1 } := by decide
  have hst : adc_sim_text ({ nsamples := 5, xrate := 2000000, simulate := 1 } : Params)
      noiseZero = render (adc_sim_vals (5 : ℤ) noiseZero) := rfl
  have hlen5 : (adc_sim_vals (5 : ℤ) noiseZero).length = 5 := by
    rw [adc_sim_vals, simList_length]
    rfl
  have hne : adc_sim_vals (5 : ℤ) noiseZero ≠ [] := by
    apply List.ne_nil_of_length_pos
    rw [hlen5]
    norm_num
  have hget : (adc_sim_vals (5 : ℤ) noiseZero).get? 0 = some (-6) := by
    rw [adc_sim_vals]
    have h0 : ((1 : ℚ), (0 : ℚ)) = simState (((5 : ℤ) : ℚ) / 20) 0 := rfl
    rw [h0, simList_get _ _ _ 0 0 0 (by decide)]
    norm_num [simState, simStep, noiseZero]
  have hmem : (-6 : ℚ) ∈ adc_sim_vals (5 : ℤ) noiseZero := List.get?_mem hget
  rw [hps, hst, crlfSplit_render _ hne]
  rw [List.all_eq_false]
  exact ⟨fmt3 (-6 : ℚ), List.mem_map_of_mem fmt3 hmem,
    by simp [fmt3_neg_not_matches (-6 : ℚ) (by norm_num)]⟩

/-- C2 (amended): for the request line GET /capture.csv?nsamples=5&
xrate=2000000&simulate=1, the parameter values become nsamples 5 (within
bounds, unchanged), xrate 2000000 (stored raw; this path never clamps it) and
simulate 1; the path routes to the capture branch, which calls the Simulated
Source reading the stored count 5; the computed body has exactly 5 lines, each
matching the pattern of an optional minus sign, digits, a dot and exactly
three digits. -/
theorem C2_end_to_end : ∀ (noise raw : ℕ → ℕ),
    (get_fname_params REQ2 parameters).1 = "/capture.csv" ∧
    strContains ICON_ICO (get_fname_params REQ2 parameters).1 = false ∧
    strContains DATA_CSV (get_fname_params REQ2 parameters).1 = false ∧
    strContains CAPTURE_CSV (get_fname_params REQ2 parameters).1 = true ∧
    (get_fname_params REQ2 parameters).2
      = { nsamples := 5, xrate := 2000000, simulate := 1 } ∧
    captureBody (get_fname_params REQ2 parameters).2 noise raw
      = adc_sim_text (get_fname_params REQ2 parameters).2 noise ∧
    (adc_sim_vals ((get_fname_params REQ2 parameters).2).nsamples noise).length = 5 ∧
    (crlfSplit (adc_sim_text (get_fname_params REQ2 parameters).2 noise)).length = 5 ∧
    (crlfSplit (adc_sim_text (get_fname_params REQ2 parameters).2 noise)).all
      matchesSignedNumLine = true := by
  intro noise raw
  have hps : (get_fname_params REQ2 parameters).2
      = { nsamples := 5, xrate := 2000000, simulate := 1 } := by decide
  have hst : adc_sim_text ({ nsamples := 5, xrate := 2000000, simulate := 1 } : Params)
      noise = render (adc_sim_vals (5 : ℤ) noise) := rfl
  have hlen5 : (adc_sim_vals (5 : ℤ) noise).length = 5 := by
    rw [adc_sim_vals, simList_length]
    rfl
  have hne : adc_sim_vals (5 : ℤ) noise ≠ [] := by
    apply List.ne_nil_of_length_pos
    rw [hlen5]
    norm_num
  have hsplit : crlfSplit (adc_sim_text
      ({ nsamples := 5, xrate := 2000000, simulate := 1 } : Params) noise)
      = (adc_sim_vals (5 : ℤ) noise).map fmt3 := by
    rw [hst, crlfSplit_render _ hne]
  refine ⟨by decide, by decide, by decide, by decide, hps, ?_, ?_, ?_, ?_⟩
  · rw [hps]
    have hsim : ({ nsamples := 5, xrate := 2000000, simulate := 1 } : Params).simulate ≠ 0 := by
      decide
    rw [captureBody, if_pos hsim]
  · rw [hps]
    exact hlen5
  · rw [hps, hsplit, List.length_map]
    exact hlen5
  · rw [hps, hsplit, List.all_eq_true]
    intro s hs
    rcases List.mem_map.mp hs with ⟨q, _, rfl⟩
    have he : matchesSignedNumLine (fmt3 q) = matchesSignedNumChars (fmt3Chars q) := rfl
    rw [he]
    exact matchesSigned_fmt3 q
